import Mathlib

/-!
# Verification of the Automata cellular-automaton driver

Shallow embedding of the simulation core of `AutomataDriver.cpp` /
`AutomataDriver.h` (class `AAutomataDriver`): grid topology, rule-set
parsing, per-cell state arrays, the step engine with its skip
optimization, the generation commit, cluster partitioning, and the
cascading completion protocol.  Per-cell boolean arrays of length
`NumCells` are embedded as functions `Nat → Bool`; every theorem about
cell contents is restricted to cell IDs below `numCells`.  The
`ParallelFor` loops of the source write disjoint per-cell slots (the
only shared writes store the constant `true`), so their net effect is
embedded as a deterministic left fold over the processed cell-ID list.
-/

/-- Grid configuration of `AAutomataDriver`: `XClusters`, `ZClusters`,
`XCellsPerCluster`, `ZCellsPerCluster`. -/
structure Grid where
  xClusters : Nat
  zClusters : Nat
  xCellsPerCluster : Nat
  zCellsPerCluster : Nat

/-- `NumClusters = XClusters * ZClusters` (from `PreInitializeComponents`). -/
def numClusters (g : Grid) : Nat := g.xClusters * g.zClusters

/-- `CellsPerCluster = XCellsPerCluster * ZCellsPerCluster`. -/
def cellsPerCluster (g : Grid) : Nat := g.xCellsPerCluster * g.zCellsPerCluster

/-- `NumCells = NumClusters * CellsPerCluster`. -/
def numCells (g : Grid) : Nat := numClusters g * cellsPerCluster g

/-- `XCells = XClusters * XCellsPerCluster` (from `InitializeCellNeighborhoods`). -/
def xCells (g : Grid) : Nat := g.xClusters * g.xCellsPerCluster

/-- `ZCells = ZClusters * ZCellsPerCluster`. -/
def zCells (g : Grid) : Nat := g.zClusters * g.zCellsPerCluster

/-- The 8-entry Moore neighborhood of a cell, in source order, from
`InitializeCellNeighborhoods`: coordinates are `z = CellID / XCells`,
`x = CellID % XCells`, wrapped toroidally.  The C++ `(z - 1 + ZCells)`
over non-negative ints is rendered as `z + ZCells - 1` in `Nat`. -/
def neighborhood (g : Grid) (cellID : Nat) : List Nat :=
  let z := cellID / xCells g
  let x := cellID % xCells g
  let zUp := (z + 1) % zCells g
  let zDown := (z + zCells g - 1) % zCells g
  let xUp := (x + 1) % xCells g
  let xDown := (x + xCells g - 1) % xCells g
  [xDown + xCells g * zDown,
   x + xCells g * zDown,
   xUp + xCells g * zDown,
   xDown + xCells g * z,
   xUp + xCells g * z,
   xDown + xCells g * zUp,
   x + xCells g * zUp,
   xUp + xCells g * zUp]

/-- Member cell IDs of a cluster, from `CellsIDsFromCluster`: outer loop
over `z < ZCellsPerCluster`, inner loop over `x < XCellsPerCluster`. -/
def cellsIDsFromCluster (g : Grid) (clusterID : Nat) : List Nat :=
  let clusterX := clusterID % g.xClusters
  let clusterZ := clusterID / g.xClusters
  (List.range g.zCellsPerCluster).flatMap (fun z =>
    (List.range g.xCellsPerCluster).map (fun x =>
      (clusterZ * g.zCellsPerCluster + z) * (g.xClusters * g.xCellsPerCluster) +
        g.xCellsPerCluster * clusterX + x))

/-- `MaxClustersPerInstance = ceil(NumClusters / Divisions)`; the source
computes `int(ceilf(float(NumClusters) / float(Divisions)))`, embedded
as exact ceiling division on `Nat`. -/
def maxClustersPerInstance (g : Grid) (divisions : Nat) : Nat :=
  (numClusters g + divisions - 1) / divisions

/-- The contiguous cluster range of partition `i`, from
`InitializeCellProcessors`: `FirstCluster = i * MaxClustersPerInstance`,
`End = min (FirstCluster + MaxClustersPerInstance) NumClusters`, loop
`j` from `FirstCluster` (inclusive) to `End` (exclusive). -/
def partitionClusters (g : Grid) (divisions i : Nat) : List Nat :=
  let firstCluster := i * maxClustersPerInstance g divisions
  let stop := min (firstCluster + maxClustersPerInstance g divisions) (numClusters g)
  List.range' firstCluster (stop - firstCluster)

/-- The cell-ID list handed to processor `i`
(`ProcessorCells.Append(CellsIDsFromCluster(j))` for each cluster `j`
of the partition). -/
def processorCells (g : Grid) (divisions i : Nat) : List Nat :=
  (partitionClusters g divisions i).flatMap (cellsIDsFromCluster g)

/-- All cell IDs in the order the cascade of processors visits them:
partition 0's list, then partition 1's, ... -/
def scheduledCells (g : Grid) (divisions : Nat) : List Nat :=
  (List.range divisions).flatMap (processorCells g divisions)

/-- All cell IDs enumerated cluster by cluster. -/
def allClusterCells (g : Grid) : List Nat :=
  (List.range (numClusters g)).flatMap (cellsIDsFromCluster g)

/-- The parsed rule tables `BirthRules` / `SurviveRules` as O(1)
membership tests over neighbor counts. -/
structure Ruleset where
  birthRules : Nat → Bool
  surviveRules : Nat → Bool

/-- Rule-string parsing from `InitializeCellRules`: the table starts as
ten `false` entries (`Init(false, 10)`); each digit character sets the
entry at its value (`ConvertCharDigitToInt`, i.e. `c - '0'`); non-digit
characters are skipped. -/
def initializeCellRules (ruleString : List Char) : List Bool :=
  ruleString.foldl
    (fun rules character =>
      if character.isDigit then rules.set (character.toNat - 48) true else rules)
    (List.replicate 10 false)

/-- The per-cell simulation state of `AAutomataDriver`: the
double-buffered state arrays, the four change-tracking arrays, and the
precomputed neighbor tables (`Neighborhoods`, and its alias
`NeighborsOf` set by `InitializeCellNeighborsOf`). -/
structure AutomataState where
  currentStates : Nat → Bool
  nextStates : Nat → Bool
  changedThisStep : Nat → Bool
  changedLastStep : Nat → Bool
  neighborhoodChangedThisStep : Nat → Bool
  neighborhoodChangedLastStep : Nat → Bool
  neighborhoods : Nat → List Nat
  neighborsOf : Nat → List Nat

/-- `GetCellAliveNeighbors`: sum `CurrentStates[NeighborID]` over the
cell's `Neighborhoods` entry. -/
def getCellAliveNeighbors (s : AutomataState) (cellID : Nat) : Nat :=
  (s.neighborhoods cellID).foldl
    (fun aliveNeighbors neighborID =>
      aliveNeighbors + (if s.currentStates neighborID then 1 else 0)) 0

/-- The next-state value `ApplyCellRules` computes for a cell:
`SurviveRules[AliveNeighbors]` if currently alive, else
`BirthRules[AliveNeighbors]`. -/
def ruleValue (R : Ruleset) (s : AutomataState) (cellID : Nat) : Bool :=
  if s.currentStates cellID then R.surviveRules (getCellAliveNeighbors s cellID)
  else R.birthRules (getCellAliveNeighbors s cellID)

/-- `ApplyCellRules(int CellID)` (the single-cell body, lines 388-411):
write `NextStates[CellID]`, then if it differs from
`CurrentStates[CellID]`, set `ChangedThisStep[CellID]` and set
`NeighborhoodChangedThisStep` for every entry of `NeighborsOf[CellID]`. -/
def applyCellRules (R : Ruleset) (s : AutomataState) (cellID : Nat) : AutomataState :=
  let s1 := { s with nextStates := Function.update s.nextStates cellID (ruleValue R s cellID) }
  if s1.nextStates cellID ≠ s1.currentStates cellID then
    { s1 with
      changedThisStep := Function.update s1.changedThisStep cellID true,
      neighborhoodChangedThisStep :=
        (s1.neighborsOf cellID).foldl
          (fun flags influencedCellID => Function.update flags influencedCellID true)
          s1.neighborhoodChangedThisStep }
  else s1

/-- A pass of the step engine over a cell-ID list, evaluating exactly
the cells selected by `shouldEvaluate`. -/
def applyCellRulesPass (R : Ruleset) (shouldEvaluate : Nat → Bool)
    (cellIDs : List Nat) (s : AutomataState) : AutomataState :=
  cellIDs.foldl
    (fun st cellID => if shouldEvaluate cellID then applyCellRules R st cellID else st) s

/-- `ApplyCellRules(const TArray<int>&)` (lines 413-445): each cell of
the list is evaluated only when
`NeighborhoodChangedLastStep[CellID] || ChangedLastStep[CellID]`.
The guard arrays are never written during the pass, so the guard is
read from the pass's starting state. -/
def applyCellRulesList (R : Ruleset) (cellIDs : List Nat) (s : AutomataState) : AutomataState :=
  applyCellRulesPass R
    (fun cellID => s.neighborhoodChangedLastStep cellID || s.changedLastStep cellID) cellIDs s

/-- The step engine with the skip optimization disabled: every cell of
the list is evaluated unconditionally. -/
def applyCellRulesListFull (R : Ruleset) (cellIDs : List Nat) (s : AutomataState) : AutomataState :=
  applyCellRulesPass R (fun _ => true) cellIDs s

/-- The per-cell body of `TimestepPropertyShift`'s `ParallelFor`:
`CurrentStates[id] = NextStates[id]`;
`NeighborhoodChangedLastStep[id] = NeighborhoodChangedThisStep[id]`;
`NeighborhoodChangedThisStep[id] = false`;
`ChangedLastStep[id] = ChangedThisStep[id]`; `ChangedThisStep[id] = false`. -/
def timestepPropertyShiftCell (s : AutomataState) (cellID : Nat) : AutomataState :=
  { s with
    currentStates := Function.update s.currentStates cellID (s.nextStates cellID),
    neighborhoodChangedLastStep :=
      Function.update s.neighborhoodChangedLastStep cellID
        (s.neighborhoodChangedThisStep cellID),
    neighborhoodChangedThisStep :=
      Function.update s.neighborhoodChangedThisStep cellID false,
    changedLastStep := Function.update s.changedLastStep cellID (s.changedThisStep cellID),
    changedThisStep := Function.update s.changedThisStep cellID false }

/-- `TimestepPropertyShift`: the commit loop over all `NumCells` cells. -/
def timestepPropertyShift (g : Grid) (s : AutomataState) : AutomataState :=
  (List.range (numCells g)).foldl timestepPropertyShiftCell s

/-- The driver state right after initialization:
`InitializeCellStates` fills `CurrentStates` (randomly: abstracted here
as the arbitrary assignment `p`), `NextStates` with `false`, and
`ChangedLastStep` / `ChangedThisStep` with `true`;
`InitializeCellNeighborhoods` fills `NeighborhoodChangedLastStep` with
`true`, `NeighborhoodChangedThisStep` with `false`, and the
`Neighborhoods` table; `InitializeCellNeighborsOf` aliases
`NeighborsOf = Neighborhoods`. -/
def initialState (g : Grid) (p : Nat → Bool) : AutomataState :=
  { currentStates := p
    nextStates := fun _ => false
    changedThisStep := fun _ => true
    changedLastStep := fun _ => true
    neighborhoodChangedThisStep := fun _ => false
    neighborhoodChangedLastStep := fun _ => true
    neighborhoods := fun cellID => neighborhood g cellID
    neighborsOf := fun cellID => neighborhood g cellID }

/-- One full generation: the cascade runs the step engine over every
partition's cells in order, then `StepComplete` calls
`TimestepPropertyShift`.  `useSkip = true` is the engine as written;
`useSkip = false` is the reference run with the skip optimization
disabled. -/
def stepGeneration (g : Grid) (divisions : Nat) (R : Ruleset) (useSkip : Bool)
    (s : AutomataState) : AutomataState :=
  timestepPropertyShift g
    (if useSkip then applyCellRulesList R (scheduledCells g divisions) s
     else applyCellRulesListFull R (scheduledCells g divisions) s)

/-- The index update of `ProcessCompleted`:
`CurrentProcess = (CurrentProcess + 1) % Divisions`. -/
def processCompletedIndex (divisions currentProcess : Nat) : Nat :=
  (currentProcess + 1) % divisions

/-- Whether `ProcessCompleted` submits another processor: it starts
`Processors[CurrentProcess]` exactly when the new index is nonzero. -/
def processCompletedSubmits (divisions currentProcess : Nat) : Bool :=
  processCompletedIndex divisions currentProcess != 0

/-- The partition indices submitted by the chain of `ProcessCompleted`
callbacks after the processor holding index `currentProcess` completes.
Each submission is triggered only by the previous processor's
completion, so the protocol is a sequential event trace; `fuel` bounds
the chain length (instantiated with `divisions`). -/
def cascadeSubmissions : Nat → Nat → Nat → List Nat
  | 0, _, _ => []
  | fuel + 1, divisions, currentProcess =>
    let nextProcess := (currentProcess + 1) % divisions
    if nextProcess ≠ 0 then nextProcess :: cascadeSubmissions fuel divisions nextProcess
    else []

/-- The full submission order of one generation's cascade:
`RunProcessesOnce` / `StepComplete` submit partition 0, and every later
submission comes from a `ProcessCompleted` callback. -/
def cascadeTrace (divisions : Nat) : List Nat :=
  0 :: cascadeSubmissions divisions divisions 0

/-! ## Rule-set parsing -/

/-- The parsing fold keeps the rule table at its initial length 10. -/
theorem rulesFold_length (cs : List Char) : ∀ acc : List Bool, acc.length = 10 →
    (cs.foldl (fun rules character =>
      if character.isDigit then rules.set (character.toNat - 48) true else rules) acc).length
      = 10 := by
  induction cs with
  | nil => intro acc h; simpa using h
  | cons c tl ih =>
    intro acc h
    simp only [List.foldl_cons]
    apply ih
    split <;> simp [h]

/-- The parsed rule table always has exactly 10 entries. -/
theorem initializeCellRules_length (cs : List Char) :
    (initializeCellRules cs).length = 10 :=
  rulesFold_length cs (List.replicate 10 false) (by simp)

/-- A `true` recorded at index 9 survives the remaining parsing steps. -/
theorem rulesFold_nine (cs : List Char) : ∀ acc : List Bool, acc.length = 10 →
    ('9' ∈ cs ∨ acc.getD 9 false = true) →
    (cs.foldl (fun rules character =>
      if character.isDigit then rules.set (character.toNat - 48) true else rules) acc).getD 9 false
      = true := by
  induction cs with
  | nil =>
    intro acc _ h
    rcases h with h | h
    · simp at h
    · simpa using h
  | cons c tl ih =>
    intro acc hlen h
    simp only [List.foldl_cons]
    apply ih
    · split <;> simp [hlen]
    · by_cases hc : c = '9'
      · right
        subst hc
        have h9 : (9 : Nat) < acc.length := by omega
        simp [List.getD_eq_getElem?_getD, List.getElem?_set_self h9]
      · rcases h with h | h
        · rcases List.mem_cons.mp h with h' | h'
          · exact absurd h'.symm hc
          · exact Or.inl h'
        · right
          by_cases hdig : c.isDigit
          · by_cases hne : c.toNat - 48 = 9
            · have h9 : (9 : Nat) < acc.length := by omega
              simp [hdig, List.getD_eq_getElem?_getD, hne, List.getElem?_set_self h9]
            · simpa [hdig, List.getD_eq_getElem?_getD, List.getElem?_set_ne hne] using h
          · simpa [hdig] using h

/-- C4 counterexample: parsing the rule string `"9"` does not reject it;
`InitializeCellRules` returns normally (its only outcome — the function
has no error path) and has silently recorded the digit 9 as a `true`
entry at index 9 of the 10-entry table. -/
theorem c4_digit_nine_silently_recorded :
    initializeCellRules ['9'] = (List.replicate 10 false).set 9 true ∧
    (initializeCellRules ['9']).getD 9 false = true := by
  constructor <;> decide

/-- C4 (amended): for every rule configuration string containing the
digit 9, rule-set parsing accepts the configuration without any error
and silently records the digit 9: the resulting table has 10 entries
with the entry at index 9 set to `true`. -/
theorem c4_amended_digit_nine_accepted (cs : List Char) (h : '9' ∈ cs) :
    (initializeCellRules cs).length = 10 ∧ (initializeCellRules cs).getD 9 false = true :=
  ⟨initializeCellRules_length cs,
   rulesFold_nine cs (List.replicate 10 false) (by simp) (Or.inl h)⟩

/-- Witness for the amended C4 at the concrete string `"b9"`. -/
theorem c4_amended_digit_nine_accepted_witness :
    '9' ∈ ['b', '9'] ∧
    ((initializeCellRules ['b', '9']).length = 10 ∧
      (initializeCellRules ['b', '9']).getD 9 false = true) :=
  ⟨by decide, c4_amended_digit_nine_accepted ['b', '9'] (by decide)⟩

/-! ## Alive-neighbor counting -/

/-- The summation fold of `GetCellAliveNeighbors` counts the entries
satisfying the predicate. -/
theorem foldl_add_if_eq_countP (p : Nat → Bool) (l : List Nat) : ∀ a : Nat,
    l.foldl (fun acc n => acc + (if p n then 1 else 0)) a = a + l.countP p := by
  induction l with
  | nil => intro a; simp
  | cons x tl ih =>
    intro a
    simp only [List.foldl_cons, ih, List.countP_cons]
    omega

/-- `GetCellAliveNeighbors` is the number of entries of the cell's
neighborhood whose `CurrentStates` entry is `true`. -/
theorem getCellAliveNeighbors_eq_countP (s : AutomataState) (cellID : Nat) :
    getCellAliveNeighbors s cellID
      = (s.neighborhoods cellID).countP (fun n => s.currentStates n) := by
  unfold getCellAliveNeighbors
  simpa using foldl_add_if_eq_countP (fun n => s.currentStates n) (s.neighborhoods cellID) 0

/-- The neighborhood table built by `InitializeCellNeighborhoods` has
exactly 8 entries per cell. -/
theorem neighborhood_length (g : Grid) (cellID : Nat) : (neighborhood g cellID).length = 8 :=
  rfl

/-- C5: for a state whose neighbor table is the one built by
`InitializeCellNeighborhoods`, every computed alive-neighbor count is at
most 8, hence strictly below the length of every parsed rule table —
every `BirthRules[AliveNeighbors]` / `SurviveRules[AliveNeighbors]` read
of `ApplyCellRules` is in bounds, for every rule string the parser
accepts, including strings containing the digit 9. -/
theorem c5_alive_neighbors_within_table_bounds (g : Grid) (s : AutomataState)
    (ruleString : List Char) (cellID : Nat)
    (hnb : s.neighborhoods = fun c => neighborhood g c) :
    getCellAliveNeighbors s cellID ≤ 8 ∧
    getCellAliveNeighbors s cellID < (initializeCellRules ruleString).length := by
  have hle : getCellAliveNeighbors s cellID ≤ 8 := by
    rw [getCellAliveNeighbors_eq_countP, hnb]
    calc (neighborhood g cellID).countP (fun n => s.currentStates n)
        ≤ (neighborhood g cellID).length := List.countP_le_length (fun n => s.currentStates n)
      _ = 8 := neighborhood_length g cellID
  refine ⟨hle, ?_⟩
  rw [initializeCellRules_length]
  omega

/-- A small concrete grid (one 2×2 cluster) used by the witnesses. -/
def gridW : Grid := ⟨1, 1, 2, 2⟩

/-- Witness for C5 on the concrete one-cluster grid, at cell 0, with the
rule string `"9"`. -/
theorem c5_alive_neighbors_within_table_bounds_witness :
    (initialState gridW (fun _ => false)).neighborhoods = (fun c => neighborhood gridW c) ∧
    (getCellAliveNeighbors (initialState gridW (fun _ => false)) 0 ≤ 8 ∧
      getCellAliveNeighbors (initialState gridW (fun _ => false)) 0
        < (initializeCellRules ['9']).length) :=
  ⟨rfl, c5_alive_neighbors_within_table_bounds gridW _ ['9'] 0 rfl⟩

/-! ## Cascade protocol -/

/-- The submissions triggered by completions, starting from a running
processor index with `currentProcess + 1 ≤ divisions`, are exactly the
remaining partition indices in increasing order. -/
theorem cascadeSubmissions_eq_range' : ∀ (fuel divisions currentProcess : Nat),
    currentProcess + 1 ≤ divisions → divisions - (currentProcess + 1) ≤ fuel →
    cascadeSubmissions fuel divisions currentProcess
      = List.range' (currentProcess + 1) (divisions - (currentProcess + 1)) := by
  intro fuel
  induction fuel with
  | zero =>
    intro d c hc hf
    have : d - (c + 1) = 0 := Nat.le_zero.mp hf
    simp [cascadeSubmissions, this]
  | succ fuel ih =>
    intro d c hc hf
    rcases Nat.lt_or_ge (c + 1) d with hlt | hge
    · have hmod : (c + 1) % d = c + 1 := Nat.mod_eq_of_lt hlt
      have hne : c + 1 ≠ 0 := Nat.succ_ne_zero c
      have hrec := ih d (c + 1) hlt (by omega)
      have hcount : d - (c + 1) = (d - (c + 2)) + 1 := by omega
      simp only [cascadeSubmissions, hmod, hne, if_pos (Nat.succ_ne_zero c), hrec]
      rw [hcount, List.range'_succ]
    · have hceq : c + 1 = d := Nat.le_antisymm hc hge
      have hmod : (c + 1) % d = 0 := by rw [hceq, Nat.mod_self]
      have hcount : d - (c + 1) = 0 := by omega
      simp [cascadeSubmissions, hmod, hcount]

/-- C9: in one generation's cascade, the submission order is exactly
partition 0 (submitted by `RunProcessesOnce` / `StepComplete`) followed
by partitions 1, …, divisions-1, each submitted only by the previous
partition's `ProcessCompleted` callback; and the completion of the last
partition, which wraps `CurrentProcess` back to 0, submits nothing. -/
theorem c9_cascade_sequential (divisions : Nat) (hd : 0 < divisions) :
    cascadeTrace divisions = List.range divisions ∧
    processCompletedSubmits divisions (divisions - 1) = false := by
  constructor
  · unfold cascadeTrace
    rw [cascadeSubmissions_eq_range' divisions divisions 0 (by omega) (by omega)]
    rw [List.range_eq_range']
    have hsucc : divisions = (divisions - 1) + 1 := by omega
    rw [hsucc]
    rw [List.range'_succ]
    simp
  · unfold processCompletedSubmits processCompletedIndex
    have : divisions - 1 + 1 = divisions := by omega
    rw [this, Nat.mod_self]
    simp

/-- Witness for C9 at `divisions = 4`. -/
theorem c9_cascade_sequential_witness :
    cascadeTrace 4 = List.range 4 ∧ processCompletedSubmits 4 (4 - 1) = false :=
  c9_cascade_sequential 4 (by decide)

/-! ## The generation commit (`TimestepPropertyShift`) -/

/-- The commit loop never writes `NextStates`, `Neighborhoods` or
`NeighborsOf`. -/
theorem shiftFold_fixed_fields (L : List Nat) : ∀ s : AutomataState,
    (L.foldl timestepPropertyShiftCell s).nextStates = s.nextStates ∧
    (L.foldl timestepPropertyShiftCell s).neighborhoods = s.neighborhoods ∧
    (L.foldl timestepPropertyShiftCell s).neighborsOf = s.neighborsOf := by
  induction L with
  | nil => intro s; exact ⟨rfl, rfl, rfl⟩
  | cons c tl ih =>
    intro s
    simpa only [List.foldl_cons] using ih (timestepPropertyShiftCell s c)

/-- Effect of the commit fold on the per-cell arrays: every cell of the
(duplicate-free) processed list receives the shifted values; every
other cell is untouched. -/
theorem shiftFold_cells (L : List Nat) (hnd : L.Nodup) : ∀ (s : AutomataState) (c : Nat),
    (c ∈ L →
      ((L.foldl timestepPropertyShiftCell s).currentStates c = s.nextStates c ∧
       (L.foldl timestepPropertyShiftCell s).changedLastStep c = s.changedThisStep c ∧
       (L.foldl timestepPropertyShiftCell s).neighborhoodChangedLastStep c
         = s.neighborhoodChangedThisStep c ∧
       (L.foldl timestepPropertyShiftCell s).changedThisStep c = false ∧
       (L.foldl timestepPropertyShiftCell s).neighborhoodChangedThisStep c = false)) ∧
    (c ∉ L →
      ((L.foldl timestepPropertyShiftCell s).currentStates c = s.currentStates c ∧
       (L.foldl timestepPropertyShiftCell s).changedLastStep c = s.changedLastStep c ∧
       (L.foldl timestepPropertyShiftCell s).neighborhoodChangedLastStep c
         = s.neighborhoodChangedLastStep c ∧
       (L.foldl timestepPropertyShiftCell s).changedThisStep c = s.changedThisStep c ∧
       (L.foldl timestepPropertyShiftCell s).neighborhoodChangedThisStep c
         = s.neighborhoodChangedThisStep c)) := by
  induction L with
  | nil =>
    intro s c
    exact ⟨fun h => absurd h (List.not_mem_nil c), fun _ => ⟨rfl, rfl, rfl, rfl, rfl⟩⟩
  | cons c0 tl ih =>
    intro s c
    have hc0tl : c0 ∉ tl := (List.nodup_cons.mp hnd).1
    have htl : tl.Nodup := (List.nodup_cons.mp hnd).2
    have ihs := ih htl (timestepPropertyShiftCell s c0) c
    simp only [List.foldl_cons]
    constructor
    · intro hmem
      rcases List.mem_cons.mp hmem with hceq | hctl
      · subst hceq
        have hout := ihs.2 hc0tl
        refine ⟨?_, ?_, ?_, ?_, ?_⟩
        · rw [hout.1]; simp [timestepPropertyShiftCell]
        · rw [hout.2.1]; simp [timestepPropertyShiftCell]
        · rw [hout.2.2.1]; simp [timestepPropertyShiftCell]
        · rw [hout.2.2.2.1]; simp [timestepPropertyShiftCell]
        · rw [hout.2.2.2.2]; simp [timestepPropertyShiftCell]
      · have hne : c ≠ c0 := fun h => hc0tl (h ▸ hctl)
        have hin := ihs.1 hctl
        refine ⟨?_, ?_, ?_, ?_, ?_⟩
        · rw [hin.1]; simp [timestepPropertyShiftCell]
        · rw [hin.2.1]; simp [timestepPropertyShiftCell, Function.update_noteq hne]
        · rw [hin.2.2.1]; simp [timestepPropertyShiftCell, Function.update_noteq hne]
        · exact hin.2.2.2.1
        · exact hin.2.2.2.2
    · intro hnm
      have hne : c ≠ c0 := fun h => hnm (h ▸ List.mem_cons_self c0 tl)
      have hctl : c ∉ tl := fun h => hnm (List.mem_cons_of_mem c0 h)
      have hout := ihs.2 hctl
      refine ⟨?_, ?_, ?_, ?_, ?_⟩
      · rw [hout.1]; simp [timestepPropertyShiftCell, Function.update_noteq hne]
      · rw [hout.2.1]; simp [timestepPropertyShiftCell, Function.update_noteq hne]
      · rw [hout.2.2.1]; simp [timestepPropertyShiftCell, Function.update_noteq hne]
      · rw [hout.2.2.2.1]; simp [timestepPropertyShiftCell, Function.update_noteq hne]
      · rw [hout.2.2.2.2]; simp [timestepPropertyShiftCell, Function.update_noteq hne]

/-- C8: the commit `TimestepPropertyShift` performs, for every cell,
`current_state ← next_state`, `changed_last_step ← changed_this_step`,
`neighborhood_changed_last_step ← neighborhood_changed_this_step`,
clears both this-step flags, and leaves the `next_state` array and the
precomputed neighbor tables unchanged. -/
theorem c8_timestepPropertyShift_commit (g : Grid) (s : AutomataState) (c : Nat)
    (hc : c < numCells g) :
    (timestepPropertyShift g s).currentStates c = s.nextStates c ∧
    (timestepPropertyShift g s).changedLastStep c = s.changedThisStep c ∧
    (timestepPropertyShift g s).neighborhoodChangedLastStep c
      = s.neighborhoodChangedThisStep c ∧
    (timestepPropertyShift g s).changedThisStep c = false ∧
    (timestepPropertyShift g s).neighborhoodChangedThisStep c = false ∧
    (timestepPropertyShift g s).nextStates = s.nextStates ∧
    (timestepPropertyShift g s).neighborhoods = s.neighborhoods ∧
    (timestepPropertyShift g s).neighborsOf = s.neighborsOf := by
  have hmem : c ∈ List.range (numCells g) := List.mem_range.mpr hc
  have hcells :=
    (shiftFold_cells (List.range (numCells g)) (List.nodup_range (numCells g)) s c).1 hmem
  have hfix := shiftFold_fixed_fields (List.range (numCells g)) s
  exact ⟨hcells.1, hcells.2.1, hcells.2.2.1, hcells.2.2.2.1, hcells.2.2.2.2,
    hfix.1, hfix.2.1, hfix.2.2⟩

/-- Witness for C8 on the concrete one-cluster grid at cell 0. -/
theorem c8_timestepPropertyShift_commit_witness :
    (0 < numCells gridW) ∧
    (timestepPropertyShift gridW (initialState gridW (fun _ => true))).currentStates 0
      = (initialState gridW (fun _ => true)).nextStates 0 := by
  have h := c8_timestepPropertyShift_commit gridW (initialState gridW (fun _ => true)) 0
    (by decide)
  exact ⟨by decide, h.1⟩

/-! ## The step-engine pass: basic structure -/

/-- `ApplyCellRules` never writes `CurrentStates`, the last-step flags,
or the neighbor tables. -/
theorem applyCellRules_fixed_fields (R : Ruleset) (s : AutomataState) (cellID : Nat) :
    (applyCellRules R s cellID).currentStates = s.currentStates ∧
    (applyCellRules R s cellID).changedLastStep = s.changedLastStep ∧
    (applyCellRules R s cellID).neighborhoodChangedLastStep = s.neighborhoodChangedLastStep ∧
    (applyCellRules R s cellID).neighborhoods = s.neighborhoods ∧
    (applyCellRules R s cellID).neighborsOf = s.neighborsOf := by
  unfold applyCellRules
  dsimp only
  split
  · exact ⟨rfl, rfl, rfl, rfl, rfl⟩
  · exact ⟨rfl, rfl, rfl, rfl, rfl⟩

/-- `ApplyCellRules` writes `NextStates` exactly at the evaluated cell,
with the rule value. -/
theorem applyCellRules_nextStates (R : Ruleset) (s : AutomataState) (cellID : Nat) :
    (applyCellRules R s cellID).nextStates
      = Function.update s.nextStates cellID (ruleValue R s cellID) := by
  unfold applyCellRules
  dsimp only
  split
  · rfl
  · rfl

/-- When the freshly written next state differs from the current state,
`ApplyCellRules` raises the cell's `ChangedThisStep` flag and the
`NeighborhoodChangedThisStep` flags of all entries of
`NeighborsOf[cellID]`. -/
theorem applyCellRules_flip (R : Ruleset) (s : AutomataState) (cellID : Nat)
    (h : ruleValue R s cellID ≠ s.currentStates cellID) :
    (applyCellRules R s cellID).changedThisStep
      = Function.update s.changedThisStep cellID true ∧
    (applyCellRules R s cellID).neighborhoodChangedThisStep
      = (s.neighborsOf cellID).foldl
          (fun flags influencedCellID => Function.update flags influencedCellID true)
          s.neighborhoodChangedThisStep := by
  unfold applyCellRules
  dsimp only
  rw [if_pos]
  · exact ⟨rfl, rfl⟩
  · simpa [Function.update_same] using h

/-- When the freshly written next state equals the current state,
`ApplyCellRules` leaves both this-step flag arrays untouched. -/
theorem applyCellRules_noflip (R : Ruleset) (s : AutomataState) (cellID : Nat)
    (h : ruleValue R s cellID = s.currentStates cellID) :
    (applyCellRules R s cellID).changedThisStep = s.changedThisStep ∧
    (applyCellRules R s cellID).neighborhoodChangedThisStep
      = s.neighborhoodChangedThisStep := by
  unfold applyCellRules
  dsimp only
  rw [if_neg]
  · exact ⟨rfl, rfl⟩
  · simp [Function.update_same, h]

/-- On a cell whose stored next state already equals its current state
and whose rule value equals its current state, `ApplyCellRules` is the
identity. -/
theorem applyCellRules_of_stable (R : Ruleset) (s : AutomataState) (cellID : Nat)
    (h1 : ruleValue R s cellID = s.currentStates cellID)
    (h2 : s.nextStates cellID = s.currentStates cellID) :
    applyCellRules R s cellID = s := by
  unfold applyCellRules
  dsimp only
  rw [if_neg]
  · rw [h1, ← h2, Function.update_eq_self]
  · simp [Function.update_same, h1]

/-- The alive-neighbor count only depends on `CurrentStates` and
`Neighborhoods`. -/
theorem getCellAliveNeighbors_congr {s t : AutomataState} (cellID : Nat)
    (hcur : t.currentStates = s.currentStates) (hnb : t.neighborhoods = s.neighborhoods) :
    getCellAliveNeighbors t cellID = getCellAliveNeighbors s cellID := by
  unfold getCellAliveNeighbors
  rw [hcur, hnb]

/-- The rule value only depends on `CurrentStates` and `Neighborhoods`. -/
theorem ruleValue_congr {R : Ruleset} {s t : AutomataState} (cellID : Nat)
    (hcur : t.currentStates = s.currentStates) (hnb : t.neighborhoods = s.neighborhoods) :
    ruleValue R t cellID = ruleValue R s cellID := by
  unfold ruleValue
  rw [getCellAliveNeighbors_congr cellID hcur hnb, hcur]

/-- Unfolding one step of a pass. -/
theorem pass_cons (R : Ruleset) (E : Nat → Bool) (c0 : Nat) (tl : List Nat)
    (s : AutomataState) :
    applyCellRulesPass R E (c0 :: tl) s
      = applyCellRulesPass R E tl (if E c0 then applyCellRules R s c0 else s) := rfl

/-- The state a pass step leaves keeps the read-only fields. -/
theorem stepState_fixed_fields (R : Ruleset) (E : Nat → Bool) (c0 : Nat) (s : AutomataState) :
    (if E c0 then applyCellRules R s c0 else s).currentStates = s.currentStates ∧
    (if E c0 then applyCellRules R s c0 else s).changedLastStep = s.changedLastStep ∧
    (if E c0 then applyCellRules R s c0 else s).neighborhoodChangedLastStep
      = s.neighborhoodChangedLastStep ∧
    (if E c0 then applyCellRules R s c0 else s).neighborhoods = s.neighborhoods ∧
    (if E c0 then applyCellRules R s c0 else s).neighborsOf = s.neighborsOf := by
  by_cases h : E c0 = true
  · rw [if_pos h]
    exact applyCellRules_fixed_fields R s c0
  · rw [if_neg (by simpa using h)]
    exact ⟨rfl, rfl, rfl, rfl, rfl⟩

/-- A whole pass keeps the read-only fields. -/
theorem pass_fixed_fields (R : Ruleset) (E : Nat → Bool) (L : List Nat) :
    ∀ s : AutomataState,
    (applyCellRulesPass R E L s).currentStates = s.currentStates ∧
    (applyCellRulesPass R E L s).changedLastStep = s.changedLastStep ∧
    (applyCellRulesPass R E L s).neighborhoodChangedLastStep
      = s.neighborhoodChangedLastStep ∧
    (applyCellRulesPass R E L s).neighborhoods = s.neighborhoods ∧
    (applyCellRulesPass R E L s).neighborsOf = s.neighborsOf := by
  induction L with
  | nil => intro s; exact ⟨rfl, rfl, rfl, rfl, rfl⟩
  | cons c0 tl ih =>
    intro s
    rw [pass_cons]
    have hstep := stepState_fixed_fields R E c0 s
    have hrec := ih (if E c0 then applyCellRules R s c0 else s)
    exact ⟨hrec.1.trans hstep.1, hrec.2.1.trans hstep.2.1, hrec.2.2.1.trans hstep.2.2.1,
      hrec.2.2.2.1.trans hstep.2.2.2.1, hrec.2.2.2.2.trans hstep.2.2.2.2⟩

/-- The guarded bulk `ApplyCellRules` is the pass whose evaluation set
is fixed by the starting state's last-step flags (which the pass never
writes). -/
theorem applyCellRulesList_eq_pass (R : Ruleset) (L : List Nat) : ∀ s : AutomataState,
    applyCellRulesList R L s
      = applyCellRulesPass R
          (fun cellID => s.neighborhoodChangedLastStep cellID || s.changedLastStep cellID) L s :=
  fun _ => rfl

/-! ## The step-engine pass: per-cell effect -/

/-- A pass writes each evaluated cell's `NextStates` entry with the rule
value computed from the (unchanging) `CurrentStates`, and leaves every
other entry alone. -/
theorem pass_nextStates (R : Ruleset) (E : Nat → Bool) (L : List Nat) :
    ∀ (s : AutomataState) (c : Nat),
    (applyCellRulesPass R E L s).nextStates c
      = if c ∈ L ∧ E c = true then ruleValue R s c else s.nextStates c := by
  induction L with
  | nil => intro s c; simp [applyCellRulesPass]
  | cons c0 tl ih =>
    intro s c
    rw [pass_cons, ih]
    have hfix := stepState_fixed_fields R E c0 s
    rw [ruleValue_congr c hfix.1 hfix.2.2.2.1]
    have hstep : (if E c0 then applyCellRules R s c0 else s).nextStates c
        = if c = c0 ∧ E c0 = true then ruleValue R s c else s.nextStates c := by
      by_cases hE0 : E c0 = true
      · rw [if_pos hE0, applyCellRules_nextStates]
        by_cases hc : c = c0
        · subst hc
          simp [Function.update_same, hE0]
        · simp [Function.update_noteq hc, hc]
      · rw [if_neg (by simpa using hE0)]
        simp [hE0]
    rw [hstep]
    by_cases hc : c = c0
    · subst hc
      by_cases hE : E c = true <;> simp [List.mem_cons, hE]
    · by_cases hmem : c ∈ tl <;> by_cases hE : E c = true <;>
        simp [List.mem_cons, hc, hmem, hE]

/-- The flag-raising loop of `ApplyCellRules` sets exactly the listed
entries to `true` and leaves the rest. -/
theorem foldl_update_true (l : List Nat) : ∀ (flags : Nat → Bool) (x : Nat),
    ((l.foldl (fun f influencedCellID => Function.update f influencedCellID true) flags) x = true
      ↔ (x ∈ l ∨ flags x = true)) := by
  induction l with
  | nil => intro flags x; simp
  | cons a tl ih =>
    intro flags x
    rw [List.foldl_cons, ih]
    by_cases hx : x = a
    · subst hx
      simp [Function.update_same]
    · rw [Function.update_noteq hx]
      simp [List.mem_cons, hx]

/-- A pass raises `ChangedThisStep` exactly at the evaluated cells whose
computed next state differs from their current state (flags already set
stay set). -/
theorem pass_changedThisStep (R : Ruleset) (E : Nat → Bool) (L : List Nat) :
    ∀ (s : AutomataState) (c : Nat),
    ((applyCellRulesPass R E L s).changedThisStep c = true ↔
      s.changedThisStep c = true ∨
        (c ∈ L ∧ E c = true ∧ ruleValue R s c ≠ s.currentStates c)) := by
  induction L with
  | nil => intro s c; simp [applyCellRulesPass]
  | cons c0 tl ih =>
    intro s c
    rw [pass_cons, ih]
    have hfix := stepState_fixed_fields R E c0 s
    rw [ruleValue_congr c hfix.1 hfix.2.2.2.1, hfix.1]
    have hstep : ((if E c0 then applyCellRules R s c0 else s).changedThisStep c = true ↔
        ((c = c0 ∧ E c0 = true ∧ ruleValue R s c0 ≠ s.currentStates c0) ∨
          s.changedThisStep c = true)) := by
      by_cases hE0 : E c0 = true
      · rw [if_pos hE0]
        by_cases hflip : ruleValue R s c0 = s.currentStates c0
        · rw [(applyCellRules_noflip R s c0 hflip).1]
          simp [hflip]
        · rw [(applyCellRules_flip R s c0 hflip).1]
          by_cases hc : c = c0
          · subst hc
            simp [Function.update_same, hE0, hflip]
          · rw [Function.update_noteq hc]
            simp [hc]
      · rw [if_neg (by simpa using hE0)]
        simp [hE0]
    rw [hstep]
    constructor
    · rintro ((⟨rfl, hE0, hflip⟩ | h) | ⟨hmem, hE, hflip⟩)
      · exact Or.inr ⟨List.mem_cons_self c tl, hE0, hflip⟩
      · exact Or.inl h
      · exact Or.inr ⟨List.mem_cons_of_mem c0 hmem, hE, hflip⟩
    · rintro (h | ⟨hmem, hE, hflip⟩)
      · exact Or.inl (Or.inr h)
      · rcases List.mem_cons.mp hmem with rfl | hmem'
        · exact Or.inl (Or.inl ⟨rfl, hE, hflip⟩)
        · exact Or.inr ⟨hmem', hE, hflip⟩

/-- A pass raises `NeighborhoodChangedThisStep` at a cell exactly when
some evaluated cell of the list flipped and lists it in its
`NeighborsOf` entry (flags already set stay set). -/
theorem pass_neighborhoodChangedThisStep (R : Ruleset) (E : Nat → Bool) (L : List Nat) :
    ∀ (s : AutomataState) (c : Nat),
    ((applyCellRulesPass R E L s).neighborhoodChangedThisStep c = true ↔
      s.neighborhoodChangedThisStep c = true ∨
        ∃ c0, c0 ∈ L ∧ E c0 = true ∧ ruleValue R s c0 ≠ s.currentStates c0 ∧
          c ∈ s.neighborsOf c0) := by
  induction L with
  | nil => intro s c; simp [applyCellRulesPass]
  | cons c0 tl ih =>
    intro s c
    rw [pass_cons, ih]
    have hfix := stepState_fixed_fields R E c0 s
    have hrv : ∀ d : Nat,
        ruleValue R (if E c0 then applyCellRules R s c0 else s) d = ruleValue R s d :=
      fun d => ruleValue_congr d hfix.1 hfix.2.2.2.1
    have hcur : (if E c0 then applyCellRules R s c0 else s).currentStates = s.currentStates :=
      hfix.1
    have hnbo : (if E c0 then applyCellRules R s c0 else s).neighborsOf = s.neighborsOf :=
      hfix.2.2.2.2
    have hstep : ((if E c0 then applyCellRules R s c0 else s).neighborhoodChangedThisStep c
          = true ↔
        ((E c0 = true ∧ ruleValue R s c0 ≠ s.currentStates c0 ∧ c ∈ s.neighborsOf c0) ∨
          s.neighborhoodChangedThisStep c = true)) := by
      by_cases hE0 : E c0 = true
      · rw [if_pos hE0]
        by_cases hflip : ruleValue R s c0 = s.currentStates c0
        · rw [(applyCellRules_noflip R s c0 hflip).2]
          simp [hflip]
        · rw [(applyCellRules_flip R s c0 hflip).2]
          rw [foldl_update_true]
          simp [hE0, hflip]
      · rw [if_neg (by simpa using hE0)]
        simp [hE0]
    simp only [hrv, hcur, hnbo]
    rw [hstep]
    constructor
    · rintro ((⟨hE0, hflip, hin⟩ | h) | ⟨d, hmem, hE, hflip, hin⟩)
      · exact Or.inr ⟨c0, List.mem_cons_self c0 tl, hE0, hflip, hin⟩
      · exact Or.inl h
      · exact Or.inr ⟨d, List.mem_cons_of_mem c0 hmem, hE, hflip, hin⟩
    · rintro (h | ⟨d, hmem, hE, hflip, hin⟩)
      · exact Or.inl (Or.inr h)
      · rcases List.mem_cons.mp hmem with rfl | hmem'
        · exact Or.inl (Or.inl ⟨hE, hflip, hin⟩)
        · exact Or.inr ⟨d, hmem', hE, hflip, hin⟩

/-! ## C2: the per-cell transition -/

/-- C2: for an evaluated cell, the engine counts the alive cells among
the 8 precomputed Moore neighbors, takes `next_state` from
`SurviveRules` when alive and from `BirthRules` when dead, and — exactly
when the computed next state differs from the current state — raises the
cell's `ChangedThisStep` flag and the `NeighborhoodChangedThisStep` flag
of each of its 8 neighbors; when they agree, both flag arrays are left
untouched. -/
theorem c2_applyCellRules_per_cell (g : Grid) (R : Ruleset) (s : AutomataState) (cellID : Nat)
    (hnb : s.neighborhoods = fun c => neighborhood g c)
    (hno : s.neighborsOf = fun c => neighborhood g c) :
    (s.neighborhoods cellID).length = 8 ∧
    getCellAliveNeighbors s cellID
      = (neighborhood g cellID).countP (fun n => s.currentStates n) ∧
    (applyCellRules R s cellID).nextStates cellID
      = (if s.currentStates cellID then R.surviveRules (getCellAliveNeighbors s cellID)
         else R.birthRules (getCellAliveNeighbors s cellID)) ∧
    ((applyCellRules R s cellID).nextStates cellID ≠ s.currentStates cellID →
      (applyCellRules R s cellID).changedThisStep cellID = true ∧
      ∀ n ∈ neighborhood g cellID,
        (applyCellRules R s cellID).neighborhoodChangedThisStep n = true) ∧
    ((applyCellRules R s cellID).nextStates cellID = s.currentStates cellID →
      (applyCellRules R s cellID).changedThisStep = s.changedThisStep ∧
      (applyCellRules R s cellID).neighborhoodChangedThisStep
        = s.neighborhoodChangedThisStep) := by
  have hnext : (applyCellRules R s cellID).nextStates cellID = ruleValue R s cellID := by
    rw [applyCellRules_nextStates, Function.update_same]
  refine ⟨?_, ?_, ?_, ?_, ?_⟩
  · rw [hnb]
    rfl
  · rw [getCellAliveNeighbors_eq_countP, hnb]
  · rw [hnext]; rfl
  · intro hne
    rw [hnext] at hne
    have hf := applyCellRules_flip R s cellID hne
    constructor
    · rw [hf.1, Function.update_same]
    · intro n hn
      rw [hf.2, foldl_update_true]
      left
      rw [hno]
      exact hn
  · intro heq
    rw [hnext] at heq
    exact applyCellRules_noflip R s cellID heq

/-- Witness for C2 on the concrete one-cluster grid at cell 1. -/
theorem c2_applyCellRules_per_cell_witness :
    ((initialState gridW (fun _ => false)).neighborhoods
        = fun c => neighborhood gridW c) ∧
    ((initialState gridW (fun _ => false)).neighborsOf
        = fun c => neighborhood gridW c) ∧
    (getCellAliveNeighbors (initialState gridW (fun _ => false)) 1
      = (neighborhood gridW 1).countP
          (fun n => (initialState gridW (fun _ => false)).currentStates n)) :=
  ⟨rfl, rfl,
    (c2_applyCellRules_per_cell gridW ⟨fun _ => false, fun _ => false⟩
      (initialState gridW (fun _ => false)) 1 rfl rfl).2.1⟩

/-! ## Grid topology: coordinate arithmetic -/

/-- `NumCells` equals the full cell-grid extent `XCells * ZCells`. -/
theorem numCells_eq (g : Grid) : numCells g = xCells g * zCells g := by
  unfold numCells numClusters cellsPerCluster xCells zCells
  ring

theorem addRow_mod {W col row : Nat} (hcol : col < W) : (col + W * row) % W = col := by
  rw [Nat.add_mul_mod_self_left, Nat.mod_eq_of_lt hcol]

theorem addRow_div {W col row : Nat} (hW : 0 < W) (hcol : col < W) :
    (col + W * row) / W = row := by
  rw [Nat.add_mul_div_left _ _ hW, Nat.div_eq_of_lt hcol, Nat.zero_add]

/-- Wrapping one step up then one step down is the identity on `[0,W)`. -/
theorem upWrap_downWrap {W v : Nat} (hW : 0 < W) (hv : v < W) :
    ((v + 1) % W + W - 1) % W = v := by
  have h1 : (v + 1) % W + W - 1 = (v + 1) % W + (W - 1) := by omega
  rw [h1, Nat.mod_add_mod]
  have h2 : v + 1 + (W - 1) = v + W := by omega
  rw [h2, Nat.add_mod_right, Nat.mod_eq_of_lt hv]

/-- Wrapping one step down then one step up is the identity on `[0,W)`. -/
theorem downWrap_upWrap {W v : Nat} (hW : 0 < W) (hv : v < W) :
    ((v + W - 1) % W + 1) % W = v := by
  have h1 : v + W - 1 = v + (W - 1) := by omega
  rw [h1, Nat.mod_add_mod]
  have h2 : v + (W - 1) + 1 = v + W := by omega
  rw [h2, Nat.add_mod_right, Nat.mod_eq_of_lt hv]

theorem cellAt_lt {W H col row : Nat} (hcol : col < W) (hrow : row < H) :
    col + W * row < W * H := by
  calc col + W * row < W + W * row := by omega
    _ = W * (row + 1) := by ring
    _ ≤ W * H := Nat.mul_le_mul_left W hrow

/-- Every Moore neighbor of an in-range cell is in range. -/
theorem neighborhood_mem_lt {g : Grid} (hx : 0 < xCells g) (hz : 0 < zCells g)
    {cellID n : Nat} (hc : cellID < numCells g) (hn : n ∈ neighborhood g cellID) :
    n < numCells g := by
  rw [numCells_eq] at hc ⊢
  have hxm : cellID % xCells g < xCells g := Nat.mod_lt _ hx
  have hzm : cellID / xCells g < zCells g := by
    rw [Nat.div_lt_iff_lt_mul hx, Nat.mul_comm]
    exact hc
  simp only [neighborhood, List.mem_cons, List.not_mem_nil, or_false] at hn
  rcases hn with rfl | rfl | rfl | rfl | rfl | rfl | rfl | rfl <;>
    apply cellAt_lt <;>
    first
      | exact Nat.mod_lt _ hx
      | exact Nat.mod_lt _ hz
      | exact hxm
      | exact hzm

/-- The Moore neighbor relation is symmetric (as set membership): if `n`
is listed among `cellID`'s neighbors, then `cellID` is listed among
`n`'s. -/
theorem mem_neighborhood_symm {g : Grid} (hx : 0 < xCells g) (hz : 0 < zCells g)
    {cellID n : Nat} (hc : cellID < numCells g) (hn : n ∈ neighborhood g cellID) :
    cellID ∈ neighborhood g n := by
  have hxm : cellID % xCells g < xCells g := Nat.mod_lt _ hx
  have hzm : cellID / xCells g < zCells g := by
    rw [Nat.div_lt_iff_lt_mul hx, Nat.mul_comm]
    rw [numCells_eq] at hc
    exact hc
  have hid : cellID % xCells g + xCells g * (cellID / xCells g) = cellID :=
    Nat.mod_add_div cellID (xCells g)
  have hxd : (cellID % xCells g + xCells g - 1) % xCells g < xCells g := Nat.mod_lt _ hx
  have hxu : (cellID % xCells g + 1) % xCells g < xCells g := Nat.mod_lt _ hx
  have hzd : (cellID / xCells g + zCells g - 1) % zCells g < zCells g := Nat.mod_lt _ hz
  have hzu : (cellID / xCells g + 1) % zCells g < zCells g := Nat.mod_lt _ hz
  have hxdu : ((cellID % xCells g + xCells g - 1) % xCells g + 1) % xCells g
      = cellID % xCells g := downWrap_upWrap hx hxm
  have hxud : ((cellID % xCells g + 1) % xCells g + xCells g - 1) % xCells g
      = cellID % xCells g := upWrap_downWrap hx hxm
  have hzdu : ((cellID / xCells g + zCells g - 1) % zCells g + 1) % zCells g
      = cellID / xCells g := downWrap_upWrap hz hzm
  have hzud : ((cellID / xCells g + 1) % zCells g + zCells g - 1) % zCells g
      = cellID / xCells g := upWrap_downWrap hz hzm
  simp only [neighborhood, List.mem_cons, List.not_mem_nil, or_false] at hn ⊢
  rcases hn with rfl | rfl | rfl | rfl | rfl | rfl | rfl | rfl
  · rw [addRow_mod hxd, addRow_div hx hxd, hxdu, hzdu]
    exact Or.inr (Or.inr (Or.inr (Or.inr (Or.inr (Or.inr (Or.inr hid.symm))))))
  · rw [addRow_mod hxm, addRow_div hx hxm, hzdu]
    exact Or.inr (Or.inr (Or.inr (Or.inr (Or.inr (Or.inr (Or.inl hid.symm))))))
  · rw [addRow_mod hxu, addRow_div hx hxu, hxud, hzdu]
    exact Or.inr (Or.inr (Or.inr (Or.inr (Or.inr (Or.inl hid.symm)))))
  · rw [addRow_mod hxd, addRow_div hx hxd, hxdu]
    exact Or.inr (Or.inr (Or.inr (Or.inr (Or.inl hid.symm))))
  · rw [addRow_mod hxu, addRow_div hx hxu, hxud]
    exact Or.inr (Or.inr (Or.inr (Or.inl hid.symm)))
  · rw [addRow_mod hxd, addRow_div hx hxd, hxdu, hzud]
    exact Or.inr (Or.inr (Or.inl hid.symm))
  · rw [addRow_mod hxm, addRow_div hx hxm, hzud]
    exact Or.inr (Or.inl hid.symm)
  · rw [addRow_mod hxu, addRow_div hx hxu, hxud, hzud]
    exact Or.inl hid.symm

/-! ## Cluster enumeration: counting -/

/-- Each row of a cluster's cell loop is a contiguous ID range. -/
theorem cellsIDsFromCluster_eq_ranges (g : Grid) (clusterID : Nat) :
    cellsIDsFromCluster g clusterID
      = (List.range g.zCellsPerCluster).flatMap (fun z =>
          List.range'
            ((clusterID / g.xClusters * g.zCellsPerCluster + z) * xCells g
              + g.xCellsPerCluster * (clusterID % g.xClusters))
            g.xCellsPerCluster) := by
  simp only [cellsIDsFromCluster]
  apply List.flatMap_congr
  intro z _
  rw [List.range'_eq_map_range]
  rfl

theorem count_range' (s n a : Nat) :
    (List.range' s n).count a = if s ≤ a ∧ a < s + n then 1 else 0 := by
  by_cases h : s ≤ a ∧ a < s + n
  · rw [if_pos h]
    exact List.count_eq_one_of_mem (List.nodup_range' s n) (List.mem_range'_1.mpr h)
  · rw [if_neg h]
    exact List.count_eq_zero.mpr (fun hmem => h (List.mem_range'_1.mp hmem))

theorem count_flatMap_range (f : Nat → List Nat) (a : Nat) (n : Nat) :
    ((List.range n).flatMap f).count a
      = ((List.range n).map (fun i => (f i).count a)).sum := by
  induction n with
  | zero => simp
  | succ m ih =>
    rw [List.range_succ, List.flatMap_append, List.count_append, ih,
      List.map_append, List.sum_append]
    simp

theorem sum_map_eq_zero (f : Nat → Nat) : ∀ n : Nat, (∀ j, j < n → f j = 0) →
    ((List.range n).map f).sum = 0 := by
  intro n
  induction n with
  | zero => intro _; simp
  | succ m ih =>
    intro h
    rw [List.range_succ, List.map_append, List.sum_append,
      ih (fun j hj => h j (by omega))]
    simp [h m (by omega)]

theorem sum_map_eq_single (f : Nat → Nat) : ∀ n i0 : Nat, i0 < n → f i0 = 1 →
    (∀ j, j < n → j ≠ i0 → f j = 0) → ((List.range n).map f).sum = 1 := by
  intro n
  induction n with
  | zero => intro i0 h _ _; exact absurd h (Nat.not_lt_zero i0)
  | succ m ih =>
    intro i0 hi0 hf1 hf0
    rw [List.range_succ, List.map_append, List.sum_append]
    by_cases hm : i0 = m
    · subst hm
      rw [sum_map_eq_zero f i0 (fun j hj => hf0 j (by omega) (by omega))]
      simp [hf1]
    · have hi0m : i0 < m := by omega
      rw [ih i0 hi0m hf1 (fun j hj hne => hf0 j (by omega) hne)]
      simp [hf0 m (by omega) (fun h => hm h.symm)]

/-- An aligned interval inside one grid row, as a coordinate condition. -/
theorem row_interval_iff {W R C n a : Nat} (hW : 0 < W) (hCn : C + n ≤ W) :
    (R * W + C ≤ a ∧ a < R * W + C + n) ↔ (a / W = R ∧ C ≤ a % W ∧ a % W < C + n) := by
  have hmod : a % W < W := Nat.mod_lt _ hW
  constructor
  · rintro ⟨h1, h2⟩
    have hdiv : a / W = R := by
      apply Nat.div_eq_of_lt_le
      · calc R * W ≤ R * W + C := Nat.le_add_right _ _
          _ ≤ a := h1
      · calc a < R * W + C + n := h2
          _ ≤ R * W + W := by omega
          _ = (R + 1) * W := by ring
    have hid : R * W + a % W = a := by
      rw [← hdiv]
      exact Nat.div_add_mod' a W
    exact ⟨hdiv, by omega, by omega⟩
  · rintro ⟨hdiv, hC, hn'⟩
    have hid : R * W + a % W = a := by
      rw [← hdiv]
      exact Nat.div_add_mod' a W
    constructor <;> omega

/-- Division by an aligned block width, as an interval condition. -/
theorem div_eq_iff_interval {n q col : Nat} (hn : 0 < n) :
    col / n = q ↔ (n * q ≤ col ∧ col < n * q + n) := by
  constructor
  · intro h
    have hid : n * (col / n) + col % n = col := Nat.div_add_mod col n
    have hmod : col % n < n := Nat.mod_lt _ hn
    rw [h] at hid
    omega
  · rintro ⟨h1, h2⟩
    apply Nat.div_eq_of_lt_le
    · rw [Nat.mul_comm]
      exact h1
    · rw [Nat.add_mul, Nat.one_mul, Nat.mul_comm q n]
      exact h2

/-- How many times a cell ID occurs in a cluster's member list: once if
the ID's block coordinates are the cluster's, never otherwise. -/
theorem count_cellsIDsFromCluster (g : Grid) (hx : 0 < g.xClusters)
    (hxc : 0 < g.xCellsPerCluster) (hzc : 0 < g.zCellsPerCluster) (clusterID a : Nat) :
    (cellsIDsFromCluster g clusterID).count a
      = if a / xCells g / g.zCellsPerCluster = clusterID / g.xClusters
          ∧ a % xCells g / g.xCellsPerCluster = clusterID % g.xClusters
        then 1 else 0 := by
  have hW : 0 < xCells g := Nat.mul_pos hx hxc
  have hcX : clusterID % g.xClusters < g.xClusters := Nat.mod_lt _ hx
  have hCn : g.xCellsPerCluster * (clusterID % g.xClusters) + g.xCellsPerCluster
      ≤ xCells g := by
    have h1 : g.xCellsPerCluster * (clusterID % g.xClusters + 1)
        ≤ g.xCellsPerCluster * g.xClusters := Nat.mul_le_mul_left _ hcX
    rw [Nat.mul_add, Nat.mul_one] at h1
    calc g.xCellsPerCluster * (clusterID % g.xClusters) + g.xCellsPerCluster
        ≤ g.xCellsPerCluster * g.xClusters := h1
      _ = xCells g := by unfold xCells; ring
  rw [cellsIDsFromCluster_eq_ranges, count_flatMap_range]
  have hterm : ∀ z ∈ List.range g.zCellsPerCluster,
      (fun z => (List.range'
          ((clusterID / g.xClusters * g.zCellsPerCluster + z) * xCells g
            + g.xCellsPerCluster * (clusterID % g.xClusters)) g.xCellsPerCluster).count a) z
        = (fun z =>
            if (a / xCells g = clusterID / g.xClusters * g.zCellsPerCluster + z
                ∧ a % xCells g / g.xCellsPerCluster = clusterID % g.xClusters)
            then 1 else 0) z := by
    intro z _
    dsimp only
    rw [count_range']
    apply if_congr _ rfl rfl
    rw [row_interval_iff hW hCn]
    constructor
    · rintro ⟨h1, h2, h3⟩
      exact ⟨h1, (div_eq_iff_interval hxc).mpr ⟨h2, h3⟩⟩
    · rintro ⟨h1, h2⟩
      have h3 := (div_eq_iff_interval hxc).mp h2
      exact ⟨h1, h3.1, h3.2⟩
  rw [List.map_congr_left hterm]
  by_cases hcond : a / xCells g / g.zCellsPerCluster = clusterID / g.xClusters
      ∧ a % xCells g / g.xCellsPerCluster = clusterID % g.xClusters
  · rw [if_pos hcond]
    have hz0 : a / xCells g % g.zCellsPerCluster < g.zCellsPerCluster := Nat.mod_lt _ hzc
    have hrow0 : a / xCells g
        = clusterID / g.xClusters * g.zCellsPerCluster
          + a / xCells g % g.zCellsPerCluster := by
      conv_lhs => rw [← Nat.div_add_mod (a / xCells g) g.zCellsPerCluster]
      rw [hcond.1, Nat.mul_comm]
    apply sum_map_eq_single _ g.zCellsPerCluster (a / xCells g % g.zCellsPerCluster) hz0
    · exact if_pos ⟨hrow0, hcond.2⟩
    · intro j hj hne
      apply if_neg
      rintro ⟨hrow, -⟩
      exact hne (by omega)
  · rw [if_neg hcond]
    apply sum_map_eq_zero
    intro j hj
    apply if_neg
    rintro ⟨hrow, hcol⟩
    apply hcond
    refine ⟨?_, hcol⟩
    rw [hrow]
    have hcomm : clusterID / g.xClusters * g.zCellsPerCluster + j
        = j + g.zCellsPerCluster * (clusterID / g.xClusters) := by ring
    rw [hcomm, addRow_div hzc hj]

/-- Every in-range cell ID occurs exactly once in the cluster-by-cluster
enumeration of all cells. -/
theorem count_allClusterCells (g : Grid) (hx : 0 < g.xClusters) (hz : 0 < g.zClusters)
    (hxc : 0 < g.xCellsPerCluster) (hzc : 0 < g.zCellsPerCluster)
    (a : Nat) (ha : a < numCells g) :
    (allClusterCells g).count a = 1 := by
  have hW : 0 < xCells g := Nat.mul_pos hx hxc
  unfold allClusterCells
  rw [count_flatMap_range]
  have hterm : ∀ c ∈ List.range (numClusters g),
      (fun c => (cellsIDsFromCluster g c).count a) c
        = (fun c =>
            if a / xCells g / g.zCellsPerCluster = c / g.xClusters
              ∧ a % xCells g / g.xCellsPerCluster = c % g.xClusters
            then 1 else 0) c :=
    fun c _ => count_cellsIDsFromCluster g hx hxc hzc c a
  rw [List.map_congr_left hterm]
  have hMlt : a % xCells g / g.xCellsPerCluster < g.xClusters := by
    rw [Nat.div_lt_iff_lt_mul hxc]
    calc a % xCells g < xCells g := Nat.mod_lt _ hW
      _ = g.xClusters * g.xCellsPerCluster := rfl
  have hDlt : a / xCells g / g.zCellsPerCluster < g.zClusters := by
    rw [Nat.div_lt_iff_lt_mul hzc]
    calc a / xCells g < zCells g := by
          rw [Nat.div_lt_iff_lt_mul hW]
          calc a < numCells g := ha
            _ = xCells g * zCells g := numCells_eq g
            _ = zCells g * xCells g := Nat.mul_comm _ _
      _ = g.zClusters * g.zCellsPerCluster := rfl
  apply sum_map_eq_single _ (numClusters g)
      (a % xCells g / g.xCellsPerCluster
        + g.xClusters * (a / xCells g / g.zCellsPerCluster))
  · calc a % xCells g / g.xCellsPerCluster
          + g.xClusters * (a / xCells g / g.zCellsPerCluster)
        < g.xClusters * g.zClusters := cellAt_lt hMlt hDlt
      _ = numClusters g := rfl
  · exact if_pos ⟨by rw [addRow_div hx hMlt], by rw [addRow_mod hMlt]⟩
  · intro j hj hne
    apply if_neg
    rintro ⟨hD, hM⟩
    apply hne
    have hjid : g.xClusters * (j / g.xClusters) + j % g.xClusters = j :=
      Nat.div_add_mod j g.xClusters
    rw [← hD, ← hM] at hjid
    omega

/-- Every listed cell ID is in range. -/
theorem mem_allClusterCells_lt (g : Grid) (hx : 0 < g.xClusters)
    {a : Nat} (ha : a ∈ allClusterCells g) : a < numCells g := by
  unfold allClusterCells at ha
  simp only [List.mem_flatMap, List.mem_range] at ha
  obtain ⟨c, hc, hmem⟩ := ha
  simp only [cellsIDsFromCluster, List.mem_flatMap, List.mem_range, List.mem_map] at hmem
  obtain ⟨z, hz', x, hx', rfl⟩ := hmem
  have hcX : c % g.xClusters < g.xClusters := Nat.mod_lt _ hx
  have hcZ : c / g.xClusters < g.zClusters := by
    rw [Nat.div_lt_iff_lt_mul hx, Nat.mul_comm]
    exact hc
  have hrow : c / g.xClusters * g.zCellsPerCluster + z < zCells g := by
    have h1 : c / g.xClusters * g.zCellsPerCluster + z
        < (c / g.xClusters + 1) * g.zCellsPerCluster := by
      rw [Nat.add_mul, Nat.one_mul]
      omega
    calc c / g.xClusters * g.zCellsPerCluster + z
        < (c / g.xClusters + 1) * g.zCellsPerCluster := h1
      _ ≤ g.zClusters * g.zCellsPerCluster := Nat.mul_le_mul_right _ hcZ
      _ = zCells g := rfl
  have hcol : g.xCellsPerCluster * (c % g.xClusters) + x < xCells g := by
    have h1 : g.xCellsPerCluster * (c % g.xClusters) + x
        < g.xCellsPerCluster * (c % g.xClusters + 1) := by
      rw [Nat.mul_add, Nat.mul_one]
      omega
    calc g.xCellsPerCluster * (c % g.xClusters) + x
        < g.xCellsPerCluster * (c % g.xClusters + 1) := h1
      _ ≤ g.xCellsPerCluster * g.xClusters := Nat.mul_le_mul_left _ hcX
      _ = xCells g := by unfold xCells; ring
  show (c / g.xClusters * g.zCellsPerCluster + z) * xCells g
      + g.xCellsPerCluster * (c % g.xClusters) + x < numCells g
  rw [numCells_eq]
  calc (c / g.xClusters * g.zCellsPerCluster + z) * xCells g
        + g.xCellsPerCluster * (c % g.xClusters) + x
      < (c / g.xClusters * g.zCellsPerCluster + z) * xCells g + xCells g := by omega
    _ = (c / g.xClusters * g.zCellsPerCluster + z + 1) * xCells g := by ring
    _ ≤ zCells g * xCells g := Nat.mul_le_mul_right _ hrow
    _ = xCells g * zCells g := Nat.mul_comm _ _

/-- Conversely, every in-range cell ID is listed. -/
theorem mem_allClusterCells (g : Grid) (hx : 0 < g.xClusters) (hz : 0 < g.zClusters)
    (hxc : 0 < g.xCellsPerCluster) (hzc : 0 < g.zCellsPerCluster)
    {a : Nat} (ha : a < numCells g) : a ∈ allClusterCells g := by
  apply List.count_pos_iff.mp
  rw [count_allClusterCells g hx hz hxc hzc a ha]
  omega

/-- The cluster-by-cluster enumeration has no duplicates. -/
theorem allClusterCells_nodup (g : Grid) (hx : 0 < g.xClusters) (hz : 0 < g.zClusters)
    (hxc : 0 < g.xCellsPerCluster) (hzc : 0 < g.zCellsPerCluster) :
    (allClusterCells g).Nodup := by
  rw [List.nodup_iff_count_le_one]
  intro a
  by_cases ha : a < numCells g
  · rw [count_allClusterCells g hx hz hxc hzc a ha]
  · rw [List.count_eq_zero.mpr (fun hmem => ha (mem_allClusterCells_lt g hx hmem))]
    omega

/-! ## Partitions -/

/-- The first `k` partitions cover exactly the first
`min (k * MaxClustersPerInstance) NumClusters` clusters, in order. -/
theorem partitionClusters_concat_aux (g : Grid) (d : Nat) : ∀ k : Nat,
    (List.range k).flatMap (partitionClusters g d)
      = List.range (min (k * maxClustersPerInstance g d) (numClusters g)) := by
  intro k
  induction k with
  | zero => simp
  | succ m ih =>
    rw [List.range_succ, List.flatMap_append, ih]
    have hsingle : ([m] : List Nat).flatMap (partitionClusters g d)
        = partitionClusters g d m := by simp
    rw [hsingle]
    simp only [partitionClusters]
    rw [List.range_eq_range', List.range_eq_range']
    by_cases hle : m * maxClustersPerInstance g d ≤ numClusters g
    · have h0 : min (m * maxClustersPerInstance g d) (numClusters g)
          = m * maxClustersPerInstance g d := by omega
      rw [h0]
      have happ := List.range'_append_1 0 (m * maxClustersPerInstance g d)
        (min (m * maxClustersPerInstance g d + maxClustersPerInstance g d) (numClusters g)
          - m * maxClustersPerInstance g d)
      rw [Nat.zero_add] at happ
      rw [happ]
      congr 1
      rw [Nat.succ_mul]
      omega
    · have h0 : min (m * maxClustersPerInstance g d) (numClusters g) = numClusters g := by
        omega
      have hB : min (m * maxClustersPerInstance g d + maxClustersPerInstance g d)
          (numClusters g) - m * maxClustersPerInstance g d = 0 := by omega
      have h1 : min ((m + 1) * maxClustersPerInstance g d) (numClusters g)
          = numClusters g := by
        rw [Nat.succ_mul]
        omega
      rw [h0, hB, h1]
      simp

/-- The concatenation of all partitions' cluster ranges is exactly the
cluster list `0, …, NumClusters-1`. -/
theorem partitionClusters_concat (g : Grid) (d : Nat) (hd : 0 < d) :
    (List.range d).flatMap (partitionClusters g d) = List.range (numClusters g) := by
  rw [partitionClusters_concat_aux]
  congr 1
  unfold maxClustersPerInstance
  have h := Nat.div_add_mod (numClusters g + d - 1) d
  have h2 : (numClusters g + d - 1) % d < d := Nat.mod_lt _ hd
  omega

/-- The cascade visits exactly the cluster-by-cluster enumeration of all
cells. -/
theorem scheduledCells_eq_allClusterCells (g : Grid) (d : Nat) (hd : 0 < d) :
    scheduledCells g d = allClusterCells g := by
  unfold scheduledCells allClusterCells
  have h1 : (List.range d).flatMap (processorCells g d)
      = (List.range d).flatMap
          (fun i => (partitionClusters g d i).flatMap (cellsIDsFromCluster g)) :=
    List.flatMap_congr (fun i _ => rfl)
  rw [h1, ← List.flatMap_assoc, partitionClusters_concat g d hd]

/-! ## C7 and C6 -/

/-- C7: enumerating the member cell IDs of all clusters yields every
cell ID in `[0, NumCells)` exactly once (and nothing else), and the cell
ID rebuilt from a cell's toroidal `(x, z)` coordinate
(`x = cellID % XCells`, `z = cellID / XCells`, ID `= x + XCells * z`)
is the original ID. -/
theorem c7_cell_cluster_bijection (g : Grid) (hx : 0 < g.xClusters) (hz : 0 < g.zClusters)
    (hxc : 0 < g.xCellsPerCluster) (hzc : 0 < g.zCellsPerCluster) (cellID : Nat)
    (hc : cellID < numCells g) :
    (allClusterCells g).count cellID = 1 ∧
    (∀ a ∈ allClusterCells g, a < numCells g) ∧
    cellID % xCells g + xCells g * (cellID / xCells g) = cellID :=
  ⟨count_allClusterCells g hx hz hxc hzc cellID hc,
   fun _ ha => mem_allClusterCells_lt g hx ha,
   Nat.mod_add_div cellID (xCells g)⟩

/-- Witness for C7 on the concrete one-cluster grid at cell 0. -/
theorem c7_cell_cluster_bijection_witness :
    (0 < numCells gridW) ∧ (allClusterCells gridW).count 0 = 1 :=
  ⟨by decide,
   (c7_cell_cluster_bijection gridW (by decide) (by decide) (by decide) (by decide) 0
     (by decide)).1⟩

/-- C6 counterexample: with 2 clusters (a 2×1 cluster grid of 1×1
clusters) and `divisions = 4`, the partition sizes are `1, 1, 0, 0`:
partition 2 contains fewer clusters than partition 0, yet partition 2 is
not the last partition — refuting "only the last partition may contain
fewer clusters than the others". -/
theorem c6_counterexample :
    (partitionClusters (Grid.mk 2 1 1 1) 4 2).length
        < (partitionClusters (Grid.mk 2 1 1 1) 4 0).length
      ∧ 2 ≠ 4 - 1 := by
  constructor
  · decide
  · decide

/-- C6 (amended): the partitions are contiguous ranges of whole
clusters whose ordered concatenation is exactly the full cluster list
(hence pairwise disjoint, covering every cluster once); every cell ID
below `NumCells` occurs in exactly one partition's cell-ID list;
every partition that ends before the clusters are exhausted holds
exactly `⌈NumClusters/divisions⌉` clusters; and partition sizes are
non-increasing, so only a trailing group of partitions (possibly more
than one, the rest of them empty) may hold fewer clusters. -/
theorem c6_partitions_amended (g : Grid) (d : Nat) (hd : 0 < d)
    (hx : 0 < g.xClusters) (hz : 0 < g.zClusters)
    (hxc : 0 < g.xCellsPerCluster) (hzc : 0 < g.zCellsPerCluster) :
    ((List.range d).flatMap (partitionClusters g d) = List.range (numClusters g)) ∧
    (∀ i, partitionClusters g d i
        = List.range' (i * maxClustersPerInstance g d)
            (min (i * maxClustersPerInstance g d + maxClustersPerInstance g d)
              (numClusters g) - i * maxClustersPerInstance g d)) ∧
    (∀ cellID, cellID < numCells g →
      ((List.range d).flatMap (processorCells g d)).count cellID = 1) ∧
    (∀ i, (i + 1) * maxClustersPerInstance g d ≤ numClusters g →
      (partitionClusters g d i).length = maxClustersPerInstance g d) ∧
    (∀ i j, i ≤ j →
      (partitionClusters g d j).length ≤ (partitionClusters g d i).length) := by
  refine ⟨partitionClusters_concat g d hd, fun i => rfl, ?_, ?_, ?_⟩
  · intro cellID hc
    have hsched : (List.range d).flatMap (processorCells g d) = allClusterCells g :=
      scheduledCells_eq_allClusterCells g d hd
    rw [hsched]
    exact count_allClusterCells g hx hz hxc hzc cellID hc
  · intro i hfull
    rw [Nat.succ_mul] at hfull
    simp only [partitionClusters, List.length_range']
    omega
  · intro i j hij
    have hmul : i * maxClustersPerInstance g d ≤ j * maxClustersPerInstance g d :=
      Nat.mul_le_mul_right _ hij
    simp only [partitionClusters, List.length_range']
    omega

/-- Witness for the amended C6 on the concrete one-cluster grid with
two divisions. -/
theorem c6_partitions_amended_witness :
    (0 < (2 : Nat)) ∧
    ((List.range 2).flatMap (partitionClusters gridW 2)
      = List.range (numClusters gridW)) :=
  ⟨by decide,
   (c6_partitions_amended gridW 2 (by decide) (by decide) (by decide) (by decide)
     (by decide)).1⟩

/-! ## The skip optimization -/

/-- The commit never writes `NextStates` or the neighbor tables
(restated for `timestepPropertyShift`). -/
theorem timestepPropertyShift_fixed (g : Grid) (s : AutomataState) :
    (timestepPropertyShift g s).nextStates = s.nextStates ∧
    (timestepPropertyShift g s).neighborhoods = s.neighborhoods ∧
    (timestepPropertyShift g s).neighborsOf = s.neighborsOf :=
  shiftFold_fixed_fields (List.range (numCells g)) s

/-- The per-cell shift relations of the commit, for an in-range cell. -/
theorem timestepPropertyShift_cell (g : Grid) (s : AutomataState) {c : Nat}
    (hc : c < numCells g) :
    (timestepPropertyShift g s).currentStates c = s.nextStates c ∧
    (timestepPropertyShift g s).changedLastStep c = s.changedThisStep c ∧
    (timestepPropertyShift g s).neighborhoodChangedLastStep c
      = s.neighborhoodChangedThisStep c :=
  let h := (shiftFold_cells (List.range (numCells g)) (List.nodup_range _) s c).1
    (List.mem_range.mpr hc)
  ⟨h.1, h.2.1, h.2.2.1⟩

/-- The alive-neighbor count only depends on the current states of the
listed neighbors. -/
theorem getCellAliveNeighbors_congr_pointwise {s t : AutomataState} (cellID : Nat)
    (hnb : t.neighborhoods cellID = s.neighborhoods cellID)
    (hcurn : ∀ n ∈ s.neighborhoods cellID, t.currentStates n = s.currentStates n) :
    getCellAliveNeighbors t cellID = getCellAliveNeighbors s cellID := by
  rw [getCellAliveNeighbors_eq_countP, getCellAliveNeighbors_eq_countP, hnb]
  exact List.countP_congr (fun n hn => by rw [hcurn n hn])

/-- The rule value only depends on the cell's own current state and the
current states of its listed neighbors. -/
theorem ruleValue_congr_pointwise {R : Ruleset} {s t : AutomataState} (cellID : Nat)
    (hnb : t.neighborhoods cellID = s.neighborhoods cellID)
    (hcurc : t.currentStates cellID = s.currentStates cellID)
    (hcurn : ∀ n ∈ s.neighborhoods cellID, t.currentStates n = s.currentStates n) :
    ruleValue R t cellID = ruleValue R s cellID := by
  unfold ruleValue
  rw [getCellAliveNeighbors_congr_pointwise cellID hnb hcurn, hcurc]

/-- The reachability invariant of the engine: the neighbor tables are
the initialized ones, and every cell the skip guard would skip has a
stored next state equal to its current state and a rule value that
confirms its current state. -/
def StableInv (g : Grid) (d : Nat) (R : Ruleset) (s : AutomataState) : Prop :=
  s.neighborhoods = (fun cellID => neighborhood g cellID) ∧
  s.neighborsOf = (fun cellID => neighborhood g cellID) ∧
  ∀ c ∈ scheduledCells g d,
    (s.neighborhoodChangedLastStep c || s.changedLastStep c) = false →
    ruleValue R s c = s.currentStates c ∧ s.nextStates c = s.currentStates c

/-- Under the stability hypothesis, a guarded pass and a full pass over
a duplicate-free list agree: on every skipped cell the full pass
rewrites the stored next state with the identical value and raises no
flag. -/
theorem pass_guard_eq_full_aux (R : Ruleset) (s : AutomataState) (L : List Nat) :
    L.Nodup →
    (∀ c ∈ L, (s.neighborhoodChangedLastStep c || s.changedLastStep c) = false →
      ruleValue R s c = s.currentStates c ∧ s.nextStates c = s.currentStates c) →
    ∀ st : AutomataState, st.currentStates = s.currentStates →
      st.neighborhoods = s.neighborhoods → st.neighborsOf = s.neighborsOf →
      (∀ c ∈ L, st.nextStates c = s.nextStates c) →
      applyCellRulesPass R
          (fun cellID => s.neighborhoodChangedLastStep cellID || s.changedLastStep cellID)
          L st
        = applyCellRulesPass R (fun _ => true) L st := by
  induction L with
  | nil => intro _ _ st _ _ _ _; rfl
  | cons c0 tl ih =>
    intro hnd hstab st hcur hnb hnbo hnext
    have hnd' := List.nodup_cons.mp hnd
    rw [pass_cons, pass_cons]
    by_cases hE : (s.neighborhoodChangedLastStep c0 || s.changedLastStep c0) = true
    · rw [if_pos hE, if_pos rfl]
      apply ih hnd'.2 (fun c hc h => hstab c (List.mem_cons_of_mem c0 hc) h)
      · rw [(applyCellRules_fixed_fields R st c0).1]
        exact hcur
      · rw [(applyCellRules_fixed_fields R st c0).2.2.2.1]
        exact hnb
      · rw [(applyCellRules_fixed_fields R st c0).2.2.2.2]
        exact hnbo
      · intro c hc
        rw [applyCellRules_nextStates,
          Function.update_noteq (fun h : c = c0 => hnd'.1 (h ▸ hc))]
        exact hnext c (List.mem_cons_of_mem c0 hc)
    · have hEf : (s.neighborhoodChangedLastStep c0 || s.changedLastStep c0) = false := by
        simpa using hE
      rw [if_neg (by simp [hEf]), if_pos rfl]
      have hstab0 := hstab c0 (List.mem_cons_self c0 tl) hEf
      have hstable : applyCellRules R st c0 = st := by
        apply applyCellRules_of_stable
        · rw [ruleValue_congr c0 hcur hnb, hcur]
          exact hstab0.1
        · rw [hnext c0 (List.mem_cons_self c0 tl), hcur]
          exact hstab0.2
      rw [hstable]
      exact ih hnd'.2 (fun c hc h => hstab c (List.mem_cons_of_mem c0 hc) h) st hcur hnb
        hnbo (fun c hc => hnext c (List.mem_cons_of_mem c0 hc))

/-- One generation with the skip guard equals one generation with every
cell evaluated, on any state satisfying the invariant. -/
theorem stepGeneration_skip_eq_full (g : Grid) (d : Nat) (R : Ruleset) (s : AutomataState)
    (hx : 0 < g.xClusters) (hz : 0 < g.zClusters)
    (hxc : 0 < g.xCellsPerCluster) (hzc : 0 < g.zCellsPerCluster) (hd : 0 < d)
    (hinv : StableInv g d R s) :
    stepGeneration g d R true s = stepGeneration g d R false s := by
  have hnodup : (scheduledCells g d).Nodup := by
    rw [scheduledCells_eq_allClusterCells g d hd]
    exact allClusterCells_nodup g hx hz hxc hzc
  have h := pass_guard_eq_full_aux R s (scheduledCells g d) hnodup hinv.2.2 s rfl rfl rfl
    (fun c _ => rfl)
  show timestepPropertyShift g (applyCellRulesList R (scheduledCells g d) s)
      = timestepPropertyShift g (applyCellRulesListFull R (scheduledCells g d) s)
  rw [applyCellRulesList_eq_pass]
  unfold applyCellRulesListFull
  rw [h]

/-- One fully evaluated generation reestablishes the invariant: a cell
both of whose dirty flags come out false did not flip and had no
flipping neighbor, so its (unchanged) neighborhood still confirms its
state. -/
theorem stableInv_step (g : Grid) (d : Nat) (R : Ruleset)
    (hx : 0 < g.xClusters) (hz : 0 < g.zClusters)
    (hxc : 0 < g.xCellsPerCluster) (hzc : 0 < g.zCellsPerCluster) (hd : 0 < d)
    (s : AutomataState)
    (hs1 : s.neighborhoods = fun cellID => neighborhood g cellID)
    (hs2 : s.neighborsOf = fun cellID => neighborhood g cellID) :
    StableInv g d R (stepGeneration g d R false s) := by
  have hWx : 0 < xCells g := Nat.mul_pos hx hxc
  have hWz : 0 < zCells g := Nat.mul_pos hz hzc
  have hmemL : ∀ a : Nat, a ∈ scheduledCells g d ↔ a < numCells g := by
    intro a
    rw [scheduledCells_eq_allClusterCells g d hd]
    exact ⟨fun h => mem_allClusterCells_lt g hx h,
      fun h => mem_allClusterCells g hx hz hxc hzc h⟩
  have hpfix := pass_fixed_fields R (fun _ => true) (scheduledCells g d) s
  show StableInv g d R
    (timestepPropertyShift g (applyCellRulesPass R (fun _ => true) (scheduledCells g d) s))
  refine ⟨?_, ?_, ?_⟩
  · rw [(timestepPropertyShift_fixed g _).2.1, hpfix.2.2.2.1, hs1]
  · rw [(timestepPropertyShift_fixed g _).2.2, hpfix.2.2.2.2, hs2]
  · intro c hcL hguard
    have hc : c < numCells g := (hmemL c).mp hcL
    have hcell := timestepPropertyShift_cell g
      (applyCellRulesPass R (fun _ => true) (scheduledCells g d) s) hc
    have hg := Bool.or_eq_false_iff.mp hguard
    have hnbhdF : AutomataState.neighborhoodChangedThisStep
        (applyCellRulesPass R (fun _ => true) (scheduledCells g d) s) c = false := by
      rw [← hcell.2.2]
      exact hg.1
    have hchF : AutomataState.changedThisStep
        (applyCellRulesPass R (fun _ => true) (scheduledCells g d) s) c = false := by
      rw [← hcell.2.1]
      exact hg.2
    have hnoflip : ruleValue R s c = s.currentStates c := by
      by_contra hne
      have h1 : AutomataState.changedThisStep
          (applyCellRulesPass R (fun _ => true) (scheduledCells g d) s) c = true :=
        (pass_changedThisStep R (fun _ => true) (scheduledCells g d) s c).mpr
          (Or.inr ⟨hcL, rfl, hne⟩)
      rw [h1] at hchF
      exact Bool.noConfusion hchF
    have hnonbr : ∀ nb ∈ neighborhood g c, ruleValue R s nb = s.currentStates nb := by
      intro nb hnb
      by_contra hne
      have hnmem : nb < numCells g := neighborhood_mem_lt hWx hWz hc hnb
      have hsym : c ∈ neighborhood g nb := mem_neighborhood_symm hWx hWz hc hnb
      have h1 : AutomataState.neighborhoodChangedThisStep
          (applyCellRulesPass R (fun _ => true) (scheduledCells g d) s) c = true :=
        (pass_neighborhoodChangedThisStep R (fun _ => true) (scheduledCells g d) s c).mpr
          (Or.inr ⟨nb, (hmemL nb).mpr hnmem, rfl, hne, by rw [hs2]; exact hsym⟩)
      rw [h1] at hnbhdF
      exact Bool.noConfusion hnbhdF
    have htc : (timestepPropertyShift g
        (applyCellRulesPass R (fun _ => true) (scheduledCells g d) s)).currentStates c
        = s.currentStates c := by
      rw [hcell.1, pass_nextStates R (fun _ => true) (scheduledCells g d) s c,
        if_pos ⟨hcL, rfl⟩, hnoflip]
    have hcurn : ∀ nb ∈ neighborhood g c,
        (timestepPropertyShift g
          (applyCellRulesPass R (fun _ => true) (scheduledCells g d) s)).currentStates nb
          = s.currentStates nb := by
      intro nb hnb
      have hnmem : nb < numCells g := neighborhood_mem_lt hWx hWz hc hnb
      have hcellnb := timestepPropertyShift_cell g
        (applyCellRulesPass R (fun _ => true) (scheduledCells g d) s) hnmem
      rw [hcellnb.1, pass_nextStates R (fun _ => true) (scheduledCells g d) s nb,
        if_pos ⟨(hmemL nb).mpr hnmem, rfl⟩, hnonbr nb hnb]
    have htop : (timestepPropertyShift g
        (applyCellRulesPass R (fun _ => true) (scheduledCells g d) s)).neighborhoods
        = s.neighborhoods := by
      rw [(timestepPropertyShift_fixed g _).2.1, hpfix.2.2.2.1]
    constructor
    · have hrv := ruleValue_congr_pointwise c
        (R := R)
        (congrFun htop c) htc
        (fun n hn => hcurn n (by rw [hs1] at hn; exact hn))
      rw [hrv, htc]
      exact hnoflip
    · rw [(timestepPropertyShift_fixed g _).1]
      exact hcell.1.symm

/-- The engine run with the skip guard and the reference run with every
cell evaluated pass through identical states, and every reached state
satisfies the invariant. -/
theorem run_skip_eq_full (g : Grid) (d : Nat) (R : Ruleset) (p : Nat → Bool)
    (hx : 0 < g.xClusters) (hz : 0 < g.zClusters)
    (hxc : 0 < g.xCellsPerCluster) (hzc : 0 < g.zCellsPerCluster) (hd : 0 < d) :
    ∀ n : Nat,
      (stepGeneration g d R true)^[n] (initialState g p)
          = (stepGeneration g d R false)^[n] (initialState g p) ∧
      StableInv g d R ((stepGeneration g d R false)^[n] (initialState g p)) := by
  intro n
  induction n with
  | zero =>
    refine ⟨rfl, rfl, rfl, ?_⟩
    intro c _ hguard
    exact absurd hguard (by simp [initialState])
  | succ m ih =>
    constructor
    · rw [Function.iterate_succ_apply', Function.iterate_succ_apply', ih.1]
      exact stepGeneration_skip_eq_full g d R _ hx hz hxc hzc hd ih.2
    · rw [Function.iterate_succ_apply']
      exact stableInv_step g d R hx hz hxc hzc hd _ ih.2.1 ih.2.2.1

/-- C1: generation by generation, the engine with the skip optimization
enabled (cells evaluated only when `NeighborhoodChangedLastStep ||
ChangedLastStep`) publishes exactly the same `current_state` array as
the engine with the skip optimization disabled (every cell evaluated
every generation), for every initial assignment and every rule set. -/
theorem c1_skip_optimization_equivalence (g : Grid) (d : Nat) (R : Ruleset)
    (p : Nat → Bool) (hx : 0 < g.xClusters) (hz : 0 < g.zClusters)
    (hxc : 0 < g.xCellsPerCluster) (hzc : 0 < g.zCellsPerCluster) (hd : 0 < d)
    (n : Nat) :
    ((stepGeneration g d R true)^[n] (initialState g p)).currentStates
      = ((stepGeneration g d R false)^[n] (initialState g p)).currentStates := by
  rw [(run_skip_eq_full g d R p hx hz hxc hzc hd n).1]

/-- Witness for C1 on the concrete one-cluster grid, Conway rules, a
single live cell, three generations. -/
theorem c1_skip_optimization_equivalence_witness :
    ((stepGeneration gridW 1 ⟨fun k => k == 3, fun k => k == 2 || k == 3⟩ true)^[3]
        (initialState gridW (fun i => i == 0))).currentStates
      = ((stepGeneration gridW 1 ⟨fun k => k == 3, fun k => k == 2 || k == 3⟩ false)^[3]
        (initialState gridW (fun i => i == 0))).currentStates :=
  c1_skip_optimization_equivalence gridW 1 _ _ (by decide) (by decide) (by decide)
    (by decide) (by decide) 3

/-- C10: right after initialization both last-step flags are `true` for
every cell, so the skip guard holds everywhere and the first pass is
exactly the unguarded pass — the all-`false` initial `NextStates` array
is overwritten with a computed value at every cell before the first
commit copies it into `CurrentStates`. -/
theorem c10_first_generation_no_skips (g : Grid) (d : Nat) (R : Ruleset) (p : Nat → Bool)
    (hx : 0 < g.xClusters) (hz : 0 < g.zClusters)
    (hxc : 0 < g.xCellsPerCluster) (hzc : 0 < g.zCellsPerCluster) (hd : 0 < d)
    (c : Nat) (hc : c < numCells g) :
    (initialState g p).changedLastStep c = true ∧
    (initialState g p).neighborhoodChangedLastStep c = true ∧
    (initialState g p).nextStates c = false ∧
    applyCellRulesList R (scheduledCells g d) (initialState g p)
      = applyCellRulesListFull R (scheduledCells g d) (initialState g p) ∧
    (applyCellRulesList R (scheduledCells g d) (initialState g p)).nextStates c
      = ruleValue R (initialState g p) c := by
  refine ⟨rfl, rfl, rfl, rfl, ?_⟩
  have hmem : c ∈ scheduledCells g d := by
    rw [scheduledCells_eq_allClusterCells g d hd]
    exact mem_allClusterCells g hx hz hxc hzc hc
  rw [applyCellRulesList_eq_pass, pass_nextStates, if_pos ⟨hmem, rfl⟩]

/-- Witness for C10 on the concrete one-cluster grid at cell 2. -/
theorem c10_first_generation_no_skips_witness :
    (2 < numCells gridW) ∧
    ((initialState gridW (fun _ => false)).changedLastStep 2 = true ∧
     (initialState gridW (fun _ => false)).neighborhoodChangedLastStep 2 = true ∧
     (initialState gridW (fun _ => false)).nextStates 2 = false ∧
     applyCellRulesList ⟨fun _ => true, fun _ => false⟩ (scheduledCells gridW 1)
         (initialState gridW (fun _ => false))
       = applyCellRulesListFull ⟨fun _ => true, fun _ => false⟩ (scheduledCells gridW 1)
           (initialState gridW (fun _ => false)) ∧
     (applyCellRulesList ⟨fun _ => true, fun _ => false⟩ (scheduledCells gridW 1)
         (initialState gridW (fun _ => false))).nextStates 2
       = ruleValue ⟨fun _ => true, fun _ => false⟩ (initialState gridW (fun _ => false)) 2) :=
  ⟨by decide,
   c10_first_generation_no_skips gridW 1 ⟨fun _ => true, fun _ => false⟩ (fun _ => false)
     (by decide) (by decide) (by decide) (by decide) (by decide) 2 (by decide)⟩

/-- C3: if a cell flips during a generation's pass (its freshly computed
next state differs from its current state), then every one of its Moore
neighbors has `NeighborhoodChangedThisStep` set by the end of that pass,
therefore satisfies the skip guard after the commit and is evaluated
(its next state is recomputed) in the following generation. -/
theorem c3_change_propagation (g : Grid) (d : Nat) (R : Ruleset) (p : Nat → Bool)
    (hx : 0 < g.xClusters) (hz : 0 < g.zClusters)
    (hxc : 0 < g.xCellsPerCluster) (hzc : 0 < g.zCellsPerCluster) (hd : 0 < d)
    (n c : Nat) (hc : c < numCells g)
    (hflip : AutomataState.nextStates
          (applyCellRulesList R (scheduledCells g d)
            ((stepGeneration g d R true)^[n] (initialState g p))) c
        ≠ AutomataState.currentStates
            ((stepGeneration g d R true)^[n] (initialState g p)) c) :
    ∀ nb ∈ neighborhood g c,
      AutomataState.neighborhoodChangedThisStep
          (applyCellRulesList R (scheduledCells g d)
            ((stepGeneration g d R true)^[n] (initialState g p))) nb = true ∧
      (AutomataState.neighborhoodChangedLastStep
            ((stepGeneration g d R true)^[n + 1] (initialState g p)) nb
        || AutomataState.changedLastStep
            ((stepGeneration g d R true)^[n + 1] (initialState g p)) nb) = true ∧
      AutomataState.nextStates
          (applyCellRulesList R (scheduledCells g d)
            ((stepGeneration g d R true)^[n + 1] (initialState g p))) nb
        = ruleValue R ((stepGeneration g d R true)^[n + 1] (initialState g p)) nb := by
  have hWx : 0 < xCells g := Nat.mul_pos hx hxc
  have hWz : 0 < zCells g := Nat.mul_pos hz hzc
  have hmemL : ∀ a : Nat, a ∈ scheduledCells g d ↔ a < numCells g := by
    intro a
    rw [scheduledCells_eq_allClusterCells g d hd]
    exact ⟨fun h => mem_allClusterCells_lt g hx h,
      fun h => mem_allClusterCells g hx hz hxc hzc h⟩
  have hrun := run_skip_eq_full g d R p hx hz hxc hzc hd n
  have hinv : StableInv g d R ((stepGeneration g d R true)^[n] (initialState g p)) := by
    rw [hrun.1]
    exact hrun.2
  have hmem : c ∈ scheduledCells g d := (hmemL c).mpr hc
  rw [applyCellRulesList_eq_pass, pass_nextStates] at hflip
  rcases Bool.eq_false_or_eq_true
      (AutomataState.neighborhoodChangedLastStep
          ((stepGeneration g d R true)^[n] (initialState g p)) c
        || AutomataState.changedLastStep
            ((stepGeneration g d R true)^[n] (initialState g p)) c) with hgt | hgf
  case inr =>
    exfalso
    rw [if_neg (by simp [hgf])] at hflip
    exact hflip (hinv.2.2 c hmem hgf).2
  case inl =>
    rw [if_pos ⟨hmem, hgt⟩] at hflip
    intro nb hnb
    have hnmem : nb < numCells g := neighborhood_mem_lt hWx hWz hc hnb
    have hnbhd : AutomataState.neighborhoodChangedThisStep
        (applyCellRulesList R (scheduledCells g d)
          ((stepGeneration g d R true)^[n] (initialState g p))) nb = true := by
      rw [applyCellRulesList_eq_pass]
      exact (pass_neighborhoodChangedThisStep R _ (scheduledCells g d) _ nb).mpr
        (Or.inr ⟨c, hmem, hgt, hflip, by rw [hinv.2.1]; exact hnb⟩)
    have hT : (stepGeneration g d R true)^[n + 1] (initialState g p)
        = timestepPropertyShift g (applyCellRulesList R (scheduledCells g d)
            ((stepGeneration g d R true)^[n] (initialState g p))) := by
      rw [Function.iterate_succ_apply']
      rfl
    have hguardT : (AutomataState.neighborhoodChangedLastStep
          ((stepGeneration g d R true)^[n + 1] (initialState g p)) nb
        || AutomataState.changedLastStep
            ((stepGeneration g d R true)^[n + 1] (initialState g p)) nb) = true := by
      rw [hT,
        (timestepPropertyShift_cell g
          (applyCellRulesList R (scheduledCells g d)
            ((stepGeneration g d R true)^[n] (initialState g p))) hnmem).2.2,
        hnbhd, Bool.true_or]
    refine ⟨hnbhd, hguardT, ?_⟩
    rw [applyCellRulesList_eq_pass, pass_nextStates,
      if_pos ⟨(hmemL nb).mpr hnmem, hguardT⟩]

/-- Witness for C3: on the one-cluster grid with a birth-everything
rule, cell 0 flips in the first generation, and its neighbor 1 is
flagged and re-evaluated. -/
theorem c3_change_propagation_witness :
    AutomataState.neighborhoodChangedThisStep
        (applyCellRulesList ⟨fun _ => true, fun _ => true⟩ (scheduledCells gridW 1)
          ((stepGeneration gridW 1 ⟨fun _ => true, fun _ => true⟩ true)^[0]
            (initialState gridW (fun _ => false)))) 1 = true ∧
    (AutomataState.neighborhoodChangedLastStep
          ((stepGeneration gridW 1 ⟨fun _ => true, fun _ => true⟩ true)^[0 + 1]
            (initialState gridW (fun _ => false))) 1
      || AutomataState.changedLastStep
          ((stepGeneration gridW 1 ⟨fun _ => true, fun _ => true⟩ true)^[0 + 1]
            (initialState gridW (fun _ => false))) 1) = true ∧
    AutomataState.nextStates
        (applyCellRulesList ⟨fun _ => true, fun _ => true⟩ (scheduledCells gridW 1)
          ((stepGeneration gridW 1 ⟨fun _ => true, fun _ => true⟩ true)^[0 + 1]
            (initialState gridW (fun _ => false)))) 1
      = ruleValue ⟨fun _ => true, fun _ => true⟩
          ((stepGeneration gridW 1 ⟨fun _ => true, fun _ => true⟩ true)^[0 + 1]
            (initialState gridW (fun _ => false))) 1 :=
  c3_change_propagation gridW 1 ⟨fun _ => true, fun _ => true⟩ (fun _ => false)
    (by decide) (by decide) (by decide) (by decide) (by decide) 0 0 (by decide)
    (by decide) 1 (by decide)
